import Mathlib

/-!
Verification of the duplicate-grouping and representative-selection engine of
`duplicate_image_remover.py` (class `DuplicateImageRemover`).

The Python code is shallowly embedded:

* `ImageRef` (an image path) is a `String`.
* `DuplicateMap` (the dict returned by the similarity oracle) is an association
  list of `(key, duplicate list)` entries.
* Python `set`s that the code iterates over are refined to duplicate-free lists
  in insertion order (`insertNode`); sets that are only queried for membership
  (`visited`) are `Finset`s.
* Filesystem reads (`os.path.getsize`) are an oracle `ImageRef → Option Nat`
  (`none` models an `OSError`).  Filesystem mutation (`shutil.copy2`,
  `os.remove`) acts on an explicit `ExecState`; injected per-file failures
  model exceptions raised by those calls.
* A raised exception that escapes a function is an `Except.error`.
-/

abbrev ImageRef := String

abbrev DuplicateMap := List (ImageRef × List ImageRef)

/-- Adding an element to a Python `set`, refined as a duplicate-free list in
insertion order. -/
def insertNode (xs : List ImageRef) (x : ImageRef) : List ImageRef :=
  if x ∈ xs then xs else xs ++ [x]

lemma mem_insertNode {xs : List ImageRef} {x y : ImageRef} :
    y ∈ insertNode xs x ↔ y ∈ xs ∨ y = x := by
  unfold insertNode
  split
  · rename_i hx
    constructor
    · exact fun h => Or.inl h
    · rintro (h | rfl)
      · exact h
      · exact hx
  · simp

lemma length_insertNode_le (xs : List ImageRef) (x : ImageRef) :
    (insertNode xs x).length ≤ xs.length + 1 := by
  unfold insertNode
  split
  · omega
  · simp

lemma nodup_insertNode {xs : List ImageRef} (h : xs.Nodup) (x : ImageRef) :
    (insertNode xs x).Nodup := by
  unfold insertNode
  split
  · exact h
  · rename_i hx
    simpa [List.nodup_append, h] using hx

lemma mem_foldl_insertNode :
    ∀ (l acc : List ImageRef) (y : ImageRef),
      y ∈ l.foldl insertNode acc ↔ y ∈ acc ∨ y ∈ l
  | [], acc, y => by simp
  | a :: l, acc, y => by
    rw [List.foldl_cons, mem_foldl_insertNode l (insertNode acc a) y, mem_insertNode]
    simp
    tauto

/-- One entry of the `all_images` accumulation in `group_duplicates`
(lines 167-173): entries with an empty duplicate list are skipped, otherwise
the key and all its listed duplicates are added to the set of images. -/
def all_images_step (acc : List ImageRef) (e : ImageRef × List ImageRef) : List ImageRef :=
  if e.2 = [] then acc else e.2.foldl insertNode (insertNode acc e.1)

/-- The `all_images` set built by `group_duplicates`: every key with a
non-empty duplicate list together with all members of those lists. -/
def all_images (m : DuplicateMap) : List ImageRef :=
  m.foldl all_images_step []

lemma mem_foldl_all_images_step :
    ∀ (m : DuplicateMap) (acc : List ImageRef) (y : ImageRef),
      y ∈ m.foldl all_images_step acc ↔
        y ∈ acc ∨ ∃ e, e ∈ m ∧ ¬ e.2 = [] ∧ (y = e.1 ∨ y ∈ e.2)
  | [], acc, y => by simp
  | e :: m, acc, y => by
    rw [List.foldl_cons, mem_foldl_all_images_step m _ y]
    unfold all_images_step
    split
    · rename_i h2
      simp only [List.mem_cons]
      constructor
      · rintro (h | ⟨f, hf, hf2, hy⟩)
        · exact Or.inl h
        · exact Or.inr ⟨f, Or.inr hf, hf2, hy⟩
      · rintro (h | ⟨f, (rfl | hf), hf2, hy⟩)
        · exact Or.inl h
        · exact absurd h2 hf2
        · exact Or.inr ⟨f, hf, hf2, hy⟩
    · rename_i h2
      rw [mem_foldl_insertNode, mem_insertNode]
      simp only [List.mem_cons]
      constructor
      · rintro (((h | h) | h) | ⟨f, hf, hf2, hy⟩)
        · exact Or.inl h
        · exact Or.inr ⟨e, Or.inl rfl, h2, Or.inl h⟩
        · exact Or.inr ⟨e, Or.inl rfl, h2, Or.inr h⟩
        · exact Or.inr ⟨f, Or.inr hf, hf2, hy⟩
      · rintro (h | ⟨f, (rfl | hf), hf2, hy⟩)
        · exact Or.inl (Or.inl (Or.inl h))
        · rcases hy with hy | hy
          · exact Or.inl (Or.inl (Or.inr hy))
          · exact Or.inl (Or.inr hy)
        · exact Or.inr ⟨f, hf, hf2, hy⟩

lemma mem_all_images {m : DuplicateMap} {y : ImageRef} :
    y ∈ all_images m ↔ ∃ e, e ∈ m ∧ ¬ e.2 = [] ∧ (y = e.1 ∨ y ∈ e.2) := by
  rw [all_images, mem_foldl_all_images_step]
  simp only [List.not_mem_nil, false_or]

/-- The undirected duplicate edges built by `group_duplicates`
(lines 170-173): for each entry and each listed duplicate, an edge in both
directions between the key and the duplicate. -/
def edges (m : DuplicateMap) : List (ImageRef × ImageRef) :=
  m.flatMap (fun e => e.2.flatMap (fun d => [(e.1, d), (d, e.1)]))

lemma mem_edges {m : DuplicateMap} {p : ImageRef × ImageRef} :
    p ∈ edges m ↔ ∃ e, e ∈ m ∧ ∃ d, d ∈ e.2 ∧ (p = (e.1, d) ∨ p = (d, e.1)) := by
  simp only [edges, List.mem_flatMap, List.mem_cons, List.not_mem_nil, or_false]

lemma edges_symm {m : DuplicateMap} {a b : ImageRef} (h : (a, b) ∈ edges m) :
    (b, a) ∈ edges m := by
  rw [mem_edges] at h ⊢
  obtain ⟨e, he, d, hd, hp | hp⟩ := h
  · exact ⟨e, he, d, hd, Or.inr (by simp [Prod.ext_iff] at hp ⊢; tauto)⟩
  · exact ⟨e, he, d, hd, Or.inl (by simp [Prod.ext_iff] at hp ⊢; tauto)⟩

lemma edges_fst_mem_all_images {m : DuplicateMap} {p : ImageRef × ImageRef}
    (h : p ∈ edges m) : p.1 ∈ all_images m := by
  rw [mem_edges] at h
  rw [mem_all_images]
  obtain ⟨e, he, d, hd, hp | hp⟩ := h
  · exact ⟨e, he, List.ne_nil_of_mem hd, Or.inl (by simp [Prod.ext_iff] at hp; tauto)⟩
  · refine ⟨e, he, List.ne_nil_of_mem hd, Or.inr ?_⟩
    have : p.1 = d := by simp [Prod.ext_iff] at hp; tauto
    exact this ▸ hd

/-- One step of collecting the adjacency set `graph[v]` out of the edge list. -/
def nbrs_step (v : ImageRef) (acc : List ImageRef) (e : ImageRef × ImageRef) : List ImageRef :=
  if e.1 = v then insertNode acc e.2 else acc

/-- The adjacency set `graph[v]` of `group_duplicates`, as a duplicate-free
list: all targets of edges whose source is `v` (a `defaultdict(set)` returns
the empty set for a vertex that no edge leaves). -/
def nbrs (m : DuplicateMap) (v : ImageRef) : List ImageRef :=
  (edges m).foldl (nbrs_step v) []

lemma mem_foldl_nbrs_step {v : ImageRef} :
    ∀ (es : List (ImageRef × ImageRef)) (acc : List ImageRef) (y : ImageRef),
      y ∈ es.foldl (nbrs_step v) acc ↔ y ∈ acc ∨ ∃ e, e ∈ es ∧ e.1 = v ∧ e.2 = y
  | [], acc, y => by simp
  | e :: es, acc, y => by
    rw [List.foldl_cons, mem_foldl_nbrs_step es _ y]
    unfold nbrs_step
    split
    · rename_i h1
      rw [mem_insertNode]
      simp only [List.mem_cons]
      constructor
      · rintro ((h | rfl) | ⟨f, hf, hf1, hf2⟩)
        · exact Or.inl h
        · exact Or.inr ⟨e, Or.inl rfl, h1, rfl⟩
        · exact Or.inr ⟨f, Or.inr hf, hf1, hf2⟩
      · rintro (h | ⟨f, (rfl | hf), hf1, hf2⟩)
        · exact Or.inl (Or.inl h)
        · exact Or.inl (Or.inr hf2.symm)
        · exact Or.inr ⟨f, hf, hf1, hf2⟩
    · rename_i h1
      simp only [List.mem_cons]
      constructor
      · rintro (h | ⟨f, hf, hf1, hf2⟩)
        · exact Or.inl h
        · exact Or.inr ⟨f, Or.inr hf, hf1, hf2⟩
      · rintro (h | ⟨f, (rfl | hf), hf1, hf2⟩)
        · exact Or.inl h
        · exact absurd hf1 h1
        · exact Or.inr ⟨f, hf, hf1, hf2⟩

lemma mem_nbrs {m : DuplicateMap} {v y : ImageRef} :
    y ∈ nbrs m v ↔ (v, y) ∈ edges m := by
  rw [nbrs, mem_foldl_nbrs_step]
  simp only [List.not_mem_nil, false_or]
  constructor
  · rintro ⟨e, he, h1, h2⟩
    cases e
    simp only at h1 h2
    subst h1
    subst h2
    exact he
  · exact fun h => ⟨(v, y), h, rfl, rfl⟩

lemma nbrs_symm {m : DuplicateMap} {u w : ImageRef} (h : w ∈ nbrs m u) :
    u ∈ nbrs m w := by
  rw [mem_nbrs] at h ⊢
  exact edges_symm h

lemma length_foldl_nbrs_step {v : ImageRef} :
    ∀ (es : List (ImageRef × ImageRef)) (acc : List ImageRef),
      (es.foldl (nbrs_step v) acc).length ≤ acc.length + es.length
  | [], acc => by simp
  | e :: es, acc => by
    rw [List.foldl_cons]
    refine le_trans (length_foldl_nbrs_step es _) ?_
    have : (nbrs_step v acc e).length ≤ acc.length + 1 := by
      unfold nbrs_step
      split
      · exact length_insertNode_le acc e.2
      · omega
    simp only [List.length_cons]
    omega

lemma nbrs_length_le (m : DuplicateMap) (v : ImageRef) :
    (nbrs m v).length ≤ (edges m).length := by
  have := @length_foldl_nbrs_step v (edges m) []
  simpa using this

lemma foldl_nbrs_step_of_no_src {v : ImageRef} :
    ∀ (es : List (ImageRef × ImageRef)) (acc : List ImageRef),
      (∀ e ∈ es, ¬ e.1 = v) → es.foldl (nbrs_step v) acc = acc
  | [], acc, _ => rfl
  | e :: es, acc, h => by
    rw [List.foldl_cons]
    have h1 : nbrs_step v acc e = acc := by
      unfold nbrs_step
      rw [if_neg (h e (List.mem_cons_self e es))]
    rw [h1]
    exact foldl_nbrs_step_of_no_src es acc (fun f hf => h f (List.mem_cons_of_mem e hf))

lemma nbrs_eq_nil_of_not_mem {m : DuplicateMap} {v : ImageRef}
    (h : ¬ v ∈ all_images m) : nbrs m v = [] := by
  rw [nbrs]
  exact foldl_nbrs_step_of_no_src (edges m) []
    (fun e he hev => h (hev ▸ edges_fst_mem_all_images he))

/-- Pushing the not-yet-visited neighbours of the current vertex onto the DFS
stack (lines 190-193); the stack is a list with its top at the head, and the
last neighbour appended by the Python loop ends on top. -/
def push_unvisited (visited : Finset ImageRef) : List ImageRef → List ImageRef → List ImageRef
  | [], stack => stack
  | n :: ns, stack => push_unvisited visited ns (if n ∈ visited then stack else n :: stack)

lemma length_push_unvisited_le {visited : Finset ImageRef} :
    ∀ (ns stack : List ImageRef),
      (push_unvisited visited ns stack).length ≤ ns.length + stack.length
  | [], stack => by simp [push_unvisited]
  | n :: ns, stack => by
    rw [push_unvisited]
    refine le_trans (length_push_unvisited_le ns _) ?_
    split
    · simp only [List.length_cons]
      omega
    · simp only [List.length_cons]
      omega

lemma mem_push_unvisited_of_stack {visited : Finset ImageRef} :
    ∀ (ns stack : List ImageRef) (x : ImageRef),
      x ∈ stack → x ∈ push_unvisited visited ns stack
  | [], _, _, hx => hx
  | n :: ns, stack, x, hx => by
    rw [push_unvisited]
    refine mem_push_unvisited_of_stack ns _ x ?_
    split
    · exact hx
    · exact List.mem_cons_of_mem n hx

lemma mem_push_unvisited_of_new {visited : Finset ImageRef} :
    ∀ (ns stack : List ImageRef) (x : ImageRef),
      x ∈ ns → ¬ x ∈ visited → x ∈ push_unvisited visited ns stack
  | [], _, _, hx, _ => by cases hx
  | n :: ns, stack, x, hx, hv => by
    rw [push_unvisited]
    rcases List.mem_cons.mp hx with rfl | hx
    · exact mem_push_unvisited_of_stack ns _ x (by rw [if_neg hv]; exact List.mem_cons_self x stack)
    · exact mem_push_unvisited_of_new ns _ x hx hv

/-- The inner DFS of `group_duplicates` (lines 181-193): repeatedly pop the
stack; an unvisited vertex is marked visited, appended to the current group,
and its unvisited neighbours are pushed. Returns the finished group together
with the updated visited set. -/
def dfs_loop (m : DuplicateMap) : List ImageRef → Finset ImageRef → List ImageRef → List ImageRef × Finset ImageRef
  | [], visited, group => (group, visited)
  | current :: rest, visited, group =>
    if current ∈ visited then dfs_loop m rest visited group
    else
      dfs_loop m (push_unvisited (insert current visited) (nbrs m current) rest)
        (insert current visited) (group ++ [current])
termination_by stack visited _ =>
  ((all_images m).toFinset \ visited).card * ((edges m).length + 1) + stack.length
decreasing_by
  · simp only [List.length_cons]
    generalize ((all_images m).toFinset \ visited).card * ((edges m).length + 1) = a
    omega
  · rename_i hcur
    by_cases hS : current ∈ (all_images m).toFinset
    · have h1 : (all_images m).toFinset \ insert current visited =
          ((all_images m).toFinset \ visited).erase current := Finset.sdiff_insert _ _ _
      have h2 : current ∈ (all_images m).toFinset \ visited :=
        Finset.mem_sdiff.mpr ⟨hS, hcur⟩
      have h3 : (((all_images m).toFinset \ visited).erase current).card
          = ((all_images m).toFinset \ visited).card - 1 := Finset.card_erase_of_mem h2
      have h4 : 1 ≤ ((all_images m).toFinset \ visited).card :=
        Finset.card_pos.mpr ⟨current, h2⟩
      have h5 : (push_unvisited (insert current visited) (nbrs m current) rest).length
          ≤ (edges m).length + rest.length := by
        refine le_trans (length_push_unvisited_le _ _) ?_
        have := nbrs_length_le m current
        omega
      rw [h1, h3]
      obtain ⟨c, hc⟩ : ∃ c, ((all_images m).toFinset \ visited).card = c + 1 :=
        ⟨_, (Nat.succ_pred_eq_of_pos h4).symm⟩
      rw [hc]
      simp only [Nat.add_sub_cancel, List.length_cons, Nat.succ_mul]
      generalize c * ((edges m).length + 1) = a
      omega
    · have h1 : (all_images m).toFinset \ insert current visited =
          (all_images m).toFinset \ visited := by
        rw [Finset.sdiff_insert]
        exact Finset.erase_eq_of_not_mem (fun hx => hS (Finset.mem_sdiff.mp hx).1)
      have h2 : nbrs m current = [] :=
        nbrs_eq_nil_of_not_mem (by simpa using hS)
      rw [h1, h2]
      simp only [push_unvisited, List.length_cons]
      generalize ((all_images m).toFinset \ visited).card * ((edges m).length + 1) = a
      omega

/-- The outer loop of `group_duplicates` (lines 179-196): run a DFS from every
not-yet-visited image and keep the resulting component when it has more than
one member. -/
def group_loop (m : DuplicateMap) : List ImageRef → Finset ImageRef → List (List ImageRef) → List (List ImageRef)
  | [], _, groups => groups
  | img :: rest, visited, groups =>
    if img ∈ visited then group_loop m rest visited groups
    else
      match dfs_loop m [img] visited [] with
      | (group, visited2) =>
        group_loop m rest visited2 (if 1 < group.length then groups ++ [group] else groups)

/-- `group_duplicates` (lines 153-198): build the undirected duplicate graph
and return its connected components of size at least 2, each component being a
duplicate-free list of images in DFS visit order. -/
def group_duplicates (m : DuplicateMap) : List (List ImageRef) :=
  group_loop m (all_images m) ∅ []

lemma dfs_loop_spec (m : DuplicateMap) :
    ∀ (stack : List ImageRef) (visited : Finset ImageRef) (group : List ImageRef),
      ∃ t : List ImageRef,
        (dfs_loop m stack visited group).1 = group ++ t ∧
        (dfs_loop m stack visited group).2 = visited ∪ t.toFinset ∧
        t.Nodup ∧
        (∀ x ∈ t, ¬ x ∈ visited) ∧
        (∀ x ∈ stack, x ∈ (dfs_loop m stack visited group).2) ∧
        (∀ x ∈ t, ∀ w ∈ nbrs m x, w ∈ (dfs_loop m stack visited group).2) := by
  intro stack visited group
  induction stack, visited, group using dfs_loop.induct m with
  | case1 visited group =>
    refine ⟨[], ?_, ?_, List.nodup_nil, by simp, by simp [dfs_loop], by simp⟩
    · simp [dfs_loop]
    · simp [dfs_loop]
  | case2 current rest visited group hcur ih =>
    have hstep : dfs_loop m (current :: rest) visited group = dfs_loop m rest visited group := by
      rw [dfs_loop]
      rw [if_pos hcur]
    obtain ⟨t, h1, h2, h3, h4, h5, h6⟩ := ih
    refine ⟨t, ?_, ?_, h3, h4, ?_, ?_⟩
    · rw [hstep]
      exact h1
    · rw [hstep]
      exact h2
    · rw [hstep]
      intro x hx
      rcases List.mem_cons.mp hx with rfl | hx
      · rw [h2]
        exact Finset.mem_union_left _ hcur
      · exact h5 x hx
    · rw [hstep]
      exact h6
  | case3 current rest visited group hcur ih =>
    have hstep : dfs_loop m (current :: rest) visited group =
        dfs_loop m (push_unvisited (insert current visited) (nbrs m current) rest)
          (insert current visited) (group ++ [current]) := by
      rw [dfs_loop]
      rw [if_neg hcur]
    obtain ⟨t, h1, h2, h3, h4, h5, h6⟩ := ih
    have hct : ¬ current ∈ t :=
      fun hc => h4 current hc (Finset.mem_insert_self current visited)
    refine ⟨current :: t, ?_, ?_, List.nodup_cons.mpr ⟨hct, h3⟩, ?_, ?_, ?_⟩
    · rw [hstep, h1]
      simp
    · rw [hstep, h2]
      rw [List.toFinset_cons, Finset.insert_union, Finset.union_insert]
    · intro x hx
      rcases List.mem_cons.mp hx with rfl | hx
      · exact hcur
      · exact fun hv => h4 x hx (Finset.mem_insert_of_mem hv)
    · rw [hstep]
      intro x hx
      rcases List.mem_cons.mp hx with rfl | hx
      · rw [h2]
        exact Finset.mem_union_left _ (Finset.mem_insert_self x visited)
      · exact h5 x (mem_push_unvisited_of_stack _ _ x hx)
    · rw [hstep]
      intro x hx w hw
      rcases List.mem_cons.mp hx with rfl | hx
      · by_cases hwv : w ∈ insert x visited
        · rw [h2]
          exact Finset.mem_union_left _ hwv
        · exact h5 w (mem_push_unvisited_of_new _ _ w hw hwv)
      · exact h6 x hx w hw

/-- The invariant maintained by the outer loop of `group_duplicates` over the
visited set and the list of emitted groups: members of emitted groups are
visited; emitted groups have at least 2 members each and no duplicates;
emitted groups are pairwise disjoint; the visited set is closed under
adjacency; and every visited image with a neighbour other than itself lies in
an emitted group. -/
def cluster_inv (m : DuplicateMap) (visited : Finset ImageRef) (groups : List (List ImageRef)) : Prop :=
  (∀ G ∈ groups, ∀ x ∈ G, x ∈ visited) ∧
  (∀ G ∈ groups, 2 ≤ G.length ∧ G.Nodup) ∧
  List.Pairwise (fun G H => ∀ x ∈ G, ¬ x ∈ H) groups ∧
  (∀ x ∈ visited, ∀ w ∈ nbrs m x, w ∈ visited) ∧
  (∀ x ∈ visited, (∃ w ∈ nbrs m x, ¬ w = x) → ∃ G ∈ groups, x ∈ G)

lemma eq_singleton_of_length_le_one {t : List ImageRef} {x : ImageRef}
    (hlen : t.length ≤ 1) (hx : x ∈ t) : t = [x] := by
  match t, hx with
  | [a], hx =>
    rcases List.mem_singleton.mp hx with rfl
    rfl
  | a :: b :: t, _ => simp at hlen

lemma group_loop_spec (m : DuplicateMap) :
    ∀ (nodes : List ImageRef) (visited : Finset ImageRef) (groups : List (List ImageRef)),
      cluster_inv m visited groups →
      ∃ vf : Finset ImageRef,
        (∀ x ∈ visited, x ∈ vf) ∧
        (∀ x ∈ nodes, x ∈ vf) ∧
        cluster_inv m vf (group_loop m nodes visited groups)
  | [], visited, groups, hinv => ⟨visited, fun _ hx => hx, by simp, hinv⟩
  | img :: rest, visited, groups, hinv => by
    obtain ⟨inv1, inv2, inv3, inv4, inv5⟩ := hinv
    by_cases himg : img ∈ visited
    · have hstep : group_loop m (img :: rest) visited groups = group_loop m rest visited groups := by
        rw [group_loop]
        rw [if_pos himg]
      obtain ⟨vf, hmono, hcov, hinvf⟩ :=
        group_loop_spec m rest visited groups ⟨inv1, inv2, inv3, inv4, inv5⟩
      rw [hstep]
      refine ⟨vf, hmono, ?_, hinvf⟩
      intro x hx
      rcases List.mem_cons.mp hx with rfl | hx
      · exact hmono x himg
      · exact hcov x hx
    · obtain ⟨t, h1, h2, h3, h4, h5, h6⟩ := dfs_loop_spec m [img] visited []
      rw [List.nil_append] at h1
      have hD : dfs_loop m [img] visited [] = (t, visited ∪ t.toFinset) := by
        rw [Prod.ext_iff]
        exact ⟨h1, h2⟩
      rw [hD] at h5 h6
      simp only at h5 h6
      have himgv1 : img ∈ visited ∪ t.toFinset := h5 img (List.mem_singleton.mpr rfl)
      have hinv1 : cluster_inv m (visited ∪ t.toFinset)
          (if 1 < t.length then groups ++ [t] else groups) := by
        have hc1 : ∀ G ∈ groups, ∀ x ∈ G, x ∈ visited ∪ t.toFinset :=
          fun G hG x hx => Finset.mem_union_left _ (inv1 G hG x hx)
      
        have hc4 : ∀ x ∈ visited ∪ t.toFinset, ∀ w ∈ nbrs m x, w ∈ visited ∪ t.toFinset := by
          intro x hx w hw
          rcases Finset.mem_union.mp hx with hx | hx
          · exact Finset.mem_union_left _ (inv4 x hx w hw)
          · exact h6 x (List.mem_toFinset.mp hx) w hw
        split
        · rename_i hlen
          refine ⟨?_, ?_, ?_, hc4, ?_⟩
          · intro G hG x hx
            rcases List.mem_append.mp hG with hG | hG
            · exact hc1 G hG x hx
            · rcases List.mem_singleton.mp hG with rfl
              exact Finset.mem_union_right _ (List.mem_toFinset.mpr hx)
          · intro G hG
            rcases List.mem_append.mp hG with hG | hG
            · exact inv2 G hG
            · rcases List.mem_singleton.mp hG with rfl
              exact ⟨by omega, h3⟩
          · rw [List.pairwise_append]
            refine ⟨inv3, List.pairwise_singleton _ _, ?_⟩
            intro G hG H hH x hxG
            rcases List.mem_singleton.mp hH with rfl
            exact fun hxt => h4 x hxt (inv1 G hG x hxG)
          · intro x hx hnb
            rcases Finset.mem_union.mp hx with hx | hx
            · obtain ⟨G, hG, hxG⟩ := inv5 x hx hnb
              exact ⟨G, List.mem_append_left _ hG, hxG⟩
            · exact ⟨t, List.mem_append_right _ (List.mem_singleton.mpr rfl),
                List.mem_toFinset.mp hx⟩
        · rename_i hlen
          refine ⟨hc1, inv2, inv3, hc4, ?_⟩
          intro x hx hnb
          rcases Finset.mem_union.mp hx with hx | hx
          · exact inv5 x hx hnb
          · exfalso
            have hxt : x ∈ t := List.mem_toFinset.mp hx
            obtain ⟨w, hw, hwx⟩ := hnb
            have hsingle : t = [x] := eq_singleton_of_length_le_one (by omega) hxt
            have hwv1 : w ∈ visited ∪ t.toFinset := h6 x hxt w hw
            have hwvis : w ∈ visited := by
              rcases Finset.mem_union.mp hwv1 with h | h
              · exact h
              · exfalso
                have : w ∈ t := List.mem_toFinset.mp h
                rw [hsingle] at this
                exact hwx (List.mem_singleton.mp this)
            have hxnw : x ∈ nbrs m w := nbrs_symm hw
            have : x ∈ visited := inv4 w hwvis x hxnw
            exact h4 x hxt this
      have hstep : group_loop m (img :: rest) visited groups =
          group_loop m rest (visited ∪ t.toFinset)
            (if 1 < t.length then groups ++ [t] else groups) := by
        rw [group_loop]
        rw [if_neg himg, hD]
      obtain ⟨vf, hmono, hcov, hinvf⟩ :=
        group_loop_spec m rest (visited ∪ t.toFinset) _ hinv1
      rw [hstep]
      refine ⟨vf, ?_, ?_, hinvf⟩
      · exact fun x hx => hmono x (Finset.mem_union_left _ hx)
      · intro x hx
        rcases List.mem_cons.mp hx with rfl | hx
        · exact hmono x himgv1
        · exact hcov x hx

lemma cluster_inv_empty (m : DuplicateMap) : cluster_inv m ∅ [] := by
  refine ⟨by simp, by simp, List.Pairwise.nil, ?_, ?_⟩
  · intro x hx
    exact absurd hx (Finset.not_mem_empty x)
  · intro x hx
    exact absurd hx (Finset.not_mem_empty x)

lemma mem_unique_of_pairwise_disjoint {groups : List (List ImageRef)}
    (hp : List.Pairwise (fun G H => ∀ x ∈ G, ¬ x ∈ H) groups)
    {G H : List ImageRef} {x : ImageRef}
    (hG : G ∈ groups) (hH : H ∈ groups) (hxG : x ∈ G) (hxH : x ∈ H) : G = H := by
  by_contra hne
  have hsym : Symmetric (fun G H : List ImageRef => ∀ x ∈ G, ¬ x ∈ H) :=
    fun _ _ h y hy hy2 => h y hy2 hy
  exact List.Pairwise.forall hsym hp hG hH hne x hxG hxH

/-- Claim C1 (amended): the clusters emitted by `group_duplicates` are
pairwise disjoint and each has size at least 2; and every image that occurs in
a duplicate edge whose two endpoints are distinct (as a key listing an image
other than itself, or as a listed duplicate distinct from its key) belongs to
exactly one emitted cluster.  (The original claim, without the distinctness
proviso, fails on a map whose only duplicate relation is a self-loop; see the
counterexample.) -/
theorem c1_cluster_partition (m : DuplicateMap) :
    List.Pairwise (fun G H => ∀ x ∈ G, ¬ x ∈ H) (group_duplicates m) ∧
    (∀ G ∈ group_duplicates m, 2 ≤ G.length ∧ G.Nodup) ∧
    (∀ x w : ImageRef, (x, w) ∈ edges m → ¬ w = x →
      ∃ G, G ∈ group_duplicates m ∧ x ∈ G ∧
        ∀ H, H ∈ group_duplicates m → x ∈ H → H = G) := by
  obtain ⟨vf, hmono, hcov, inv1, inv2, inv3, inv4, inv5⟩ :=
    group_loop_spec m (all_images m) ∅ [] (cluster_inv_empty m)
  refine ⟨inv3, inv2, ?_⟩
  intro x w hxw hwx
  have hx : x ∈ all_images m := by
    have := edges_fst_mem_all_images hxw
    simpa using this
  have hxvf : x ∈ vf := hcov x hx
  obtain ⟨G, hG, hxG⟩ := inv5 x hxvf ⟨w, mem_nbrs.mpr hxw, hwx⟩
  exact ⟨G, hG, hxG, fun H hH hxH => mem_unique_of_pairwise_disjoint inv3 hH hG hxH hxG⟩

/-- Claim C1 witness: on the map with the single entry `a ↦ [b]`, the image
`a` occurs in a duplicate edge with distinct endpoints, and it belongs to
exactly one emitted cluster. -/
theorem c1_cluster_partition_witness :
    ((("a", "b") ∈ edges [("a", ["b"])]) ∧ ¬ ("b" : ImageRef) = "a") ∧
    (∃ G, G ∈ group_duplicates [("a", ["b"])] ∧ ("a" : ImageRef) ∈ G ∧
      ∀ H, H ∈ group_duplicates [("a", ["b"])] → ("a" : ImageRef) ∈ H → H = G) :=
  ⟨⟨by decide, by decide⟩,
    (c1_cluster_partition [("a", ["b"])]).2.2 "a" "b" (by decide) (by decide)⟩

/-- Claim C1 counterexample: on the map `a ↦ [a]` (a single self-loop), `a`
appears as a key with a non-empty duplicate list, yet `group_duplicates`
emits no cluster at all, so `a` does not belong to any emitted cluster. -/
theorem c1_self_loop_counterexample :
    group_duplicates [("a", ["a"])] = [] ∧
    ¬ (∃ G, G ∈ group_duplicates [("a", ["a"])] ∧ ("a" : ImageRef) ∈ G) := by
  have h : group_duplicates [("a", ["a"])] = [] := by
    simp [group_duplicates, group_loop, dfs_loop, all_images, all_images_step,
      insertNode, nbrs, nbrs_step, edges, push_unvisited, List.foldl]
  refine ⟨h, ?_⟩
  rw [h]
  rintro ⟨G, hG, _⟩
  exact absurd hG (List.not_mem_nil G)

/-- Claim C2: adding the reverse direction of an already-present duplicate
edge never changes the emitted clusters: for distinct images `A` and `B`, the
map `A ↦ [B]` produces exactly the same clusters as `A ↦ [B], B ↦ [A]`. -/
theorem c2_symmetry_closure (A B : ImageRef) (hab : ¬ A = B) :
    group_duplicates [(A, [B])] = group_duplicates [(A, [B]), (B, [A])] := by
  have hba : ¬ B = A := fun h => hab h.symm
  simp [group_duplicates, group_loop, dfs_loop, all_images, all_images_step,
    insertNode, nbrs, nbrs_step, edges, push_unvisited, List.foldl, hab, hba]

/-- Claim C2 witness: the symmetry closure at the concrete images
`a` and `b`. -/
theorem c2_symmetry_closure_witness :
    ¬ ("a" : ImageRef) = "b" ∧
    group_duplicates [("a", ["b"])] = group_duplicates [("a", ["b"]), ("b", ["a"])] :=
  ⟨by decide, c2_symmetry_closure "a" "b" (by decide)⟩

/-- Claim C3: transitivity of clustering: for pairwise distinct images
`A`, `B`, `C`, the map `A ↦ [B], B ↦ [C], C ↦ []` yields exactly one cluster,
consisting of `A`, `B` and `C`. -/
theorem c3_chain_merge (A B C : ImageRef)
    (hab : ¬ A = B) (hac : ¬ A = C) (hbc : ¬ B = C) :
    group_duplicates [(A, [B]), (B, [C]), (C, [])] = [[A, B, C]] := by
  have hba : ¬ B = A := fun h => hab h.symm
  have hca : ¬ C = A := fun h => hac h.symm
  have hcb : ¬ C = B := fun h => hbc h.symm
  simp [group_duplicates, group_loop, dfs_loop, all_images, all_images_step,
    insertNode, nbrs, nbrs_step, edges, push_unvisited, List.foldl,
    hab, hba, hac, hca, hbc, hcb]

/-- Claim C3 witness: the chain merge at the concrete images
`a`, `b`, `c`. -/
theorem c3_chain_merge_witness :
    (¬ ("a" : ImageRef) = "b" ∧ ¬ ("a" : ImageRef) = "c" ∧ ¬ ("b" : ImageRef) = "c") ∧
    group_duplicates [("a", ["b"]), ("b", ["c"]), ("c", [])] = [["a", "b", "c"]] :=
  ⟨⟨by decide, by decide, by decide⟩,
    c3_chain_merge "a" "b" "c" (by decide) (by decide) (by decide)⟩

/-- The accumulating loop of `select_representative` (lines 211-221): walk
the group keeping the best image seen so far and its size; a member whose
size cannot be read (`OSError`) is skipped; a member replaces the best only
when its size is strictly greater than the best size (initially 0). -/
def select_loop (sz : ImageRef → Option Nat) : List ImageRef → Option ImageRef → Nat → Option ImageRef × Nat
  | [], best, best_size => (best, best_size)
  | p :: rest, best, best_size =>
    match sz p with
    | none => select_loop sz rest best best_size
    | some s =>
      if best_size < s then select_loop sz rest (some p) s
      else select_loop sz rest best best_size

/-- `select_representative` (lines 200-223): the best image found by the
loop, except that when the loop found nothing — or found the empty path,
which is falsy in the Python expression `best_image or list(group)[0]` — the
first member of the group is returned instead; `none` models the
`IndexError` that `list(group)[0]` raises on an empty group. -/
def select_representative (sz : ImageRef → Option Nat) (group : List ImageRef) : Option ImageRef :=
  match (select_loop sz group none 0).1 with
  | some b => if b = "" then group.head? else some b
  | none => group.head?

lemma select_loop_le (sz : ImageRef → Option Nat) :
    ∀ (l : List ImageRef) (best : Option ImageRef) (bs : Nat),
      bs ≤ (select_loop sz l best bs).2
  | [], _, _ => le_refl _
  | p :: rest, best, bs => by
    rcases hsz : sz p with _ | s
    · simp only [select_loop, hsz]
      exact select_loop_le sz rest best bs
    · simp only [select_loop, hsz]
      split
      · rename_i hlt
        exact le_trans (le_of_lt hlt) (select_loop_le sz rest (some p) s)
      · exact select_loop_le sz rest best bs

lemma select_loop_ub (sz : ImageRef → Option Nat) :
    ∀ (l : List ImageRef) (best : Option ImageRef) (bs : Nat) (q : ImageRef),
      q ∈ l → ∀ t, sz q = some t → t ≤ (select_loop sz l best bs).2
  | p :: rest, best, bs, q, hq, t, ht => by
    rcases List.mem_cons.mp hq with rfl | hq
    · simp only [select_loop, ht]
      split
      · rename_i hlt
        exact select_loop_le sz rest (some q) t
      · rename_i hlt
        exact le_trans (by omega) (select_loop_le sz rest best bs)
    · rcases hsz : sz p with _ | s
      · simp only [select_loop, hsz]
        exact select_loop_ub sz rest best bs q hq t ht
      · simp only [select_loop, hsz]
        split
        · exact select_loop_ub sz rest (some p) s q hq t ht
        · exact select_loop_ub sz rest best bs q hq t ht

lemma select_loop_cases (sz : ImageRef → Option Nat) :
    ∀ (l : List ImageRef) (best : Option ImageRef) (bs : Nat),
      ((select_loop sz l best bs).1 = best ∧ (select_loop sz l best bs).2 = bs) ∨
      ∃ p, p ∈ l ∧ (select_loop sz l best bs).1 = some p ∧
        sz p = some (select_loop sz l best bs).2
  | [], best, bs => Or.inl ⟨rfl, rfl⟩
  | p :: rest, best, bs => by
    rcases hszp : sz p with _ | s
    · simp only [select_loop, hszp]
      rcases select_loop_cases sz rest best bs with h | ⟨q, hq, h1, h2⟩
      · exact Or.inl h
      · exact Or.inr ⟨q, List.mem_cons_of_mem p hq, h1, h2⟩
    · simp only [select_loop, hszp]
      split
      · rcases select_loop_cases sz rest (some p) s with ⟨h1, h2⟩ | ⟨q, hq, h1, h2⟩
        · exact Or.inr ⟨p, List.mem_cons_self p rest, h1, by rw [h2]; exact hszp⟩
        · exact Or.inr ⟨q, List.mem_cons_of_mem p hq, h1, h2⟩
      · rcases select_loop_cases sz rest best bs with h | ⟨q, hq, h1, h2⟩
        · exact Or.inl h
        · exact Or.inr ⟨q, List.mem_cons_of_mem p hq, h1, h2⟩

lemma select_loop_all_none (sz : ImageRef → Option Nat) :
    ∀ (l : List ImageRef) (best : Option ImageRef) (bs : Nat),
      (∀ p ∈ l, sz p = none) → select_loop sz l best bs = (best, bs)
  | [], _, _, _ => rfl
  | p :: rest, best, bs, h => by
    simp only [select_loop, h p (List.mem_cons_self p rest)]
    exact select_loop_all_none sz rest best bs (fun q hq => h q (List.mem_cons_of_mem p hq))

lemma head?_mem {l : List ImageRef} {a : ImageRef} (h : l.head? = some a) : a ∈ l := by
  cases l with
  | nil => cases h
  | cons x l =>
    rw [List.head?_cons, Option.some_inj] at h
    subst h
    exact List.mem_cons_self _ _

lemma select_representative_mem {sz : ImageRef → Option Nat} {group : List ImageRef}
    {r : ImageRef} (h : select_representative sz group = some r) : r ∈ group := by
  unfold select_representative at h
  split at h
  · rename_i b heq
    split at h
    · exact head?_mem h
    · rw [Option.some_inj] at h
      subst h
      rcases select_loop_cases sz group none 0 with ⟨h1, _⟩ | ⟨q, hq, h1, _⟩
      · rw [h1] at heq
        cases heq
      · rw [h1] at heq
        rw [Option.some_inj] at heq
        rw [heq] at hq
        exact hq
  · exact head?_mem h

lemma select_representative_of_ne_nil {sz : ImageRef → Option Nat} {group : List ImageRef}
    (h : ¬ group = []) : ∃ r, select_representative sz group = some r := by
  obtain ⟨a, l, rfl⟩ := List.exists_cons_of_ne_nil h
  unfold select_representative
  split
  · rename_i b heq
    split
    · exact ⟨a, rfl⟩
    · exact ⟨b, rfl⟩
  · exact ⟨a, rfl⟩

/-- The per-file size oracle of the claim C4 counterexample: the image `a`
exists with size 0 bytes, every other path is unreadable. -/
def sz_c4 : ImageRef → Option Nat := fun p => if p = "a" then some 0 else none

/-- Claim C4 counterexample: on the cluster `[b, a]` where `b` is unreadable
and `a` has size 0, `select_representative` returns `b` — a member whose size
cannot be read — although the size of `a` is readable; a readable member of
size 0 never beats the initial best size 0 in the strict comparison, so the
claimed "largest readable member" property fails. -/
theorem c4_zero_size_counterexample :
    select_representative sz_c4 ["b", "a"] = some "b" ∧
    sz_c4 "b" = none ∧ sz_c4 "a" = some 0 := by
  refine ⟨?_, by decide, by decide⟩
  decide

/-- Claim C4 (amended): for a cluster of non-empty paths in which at least
one member has a readable size of at least 1 byte, `select_representative`
returns a member whose size is readable and at least the size of every
readable member (members of unreadable size are excluded, and so are members
of size 0, which never win the strict comparison against the initial best
size 0); and when no member's size is readable it falls back to the first
member of the cluster, a deterministic default, rather than failing. -/
theorem c4_select_largest (sz : ImageRef → Option Nat) (group : List ImageRef)
    (hne : ¬ group = []) (hnempty : ∀ p ∈ group, ¬ p = "") :
    ((∃ p, p ∈ group ∧ ∃ s, sz p = some s ∧ 0 < s) →
      ∃ r s, select_representative sz group = some r ∧ r ∈ group ∧ sz r = some s ∧
        ∀ q ∈ group, ∀ t, sz q = some t → t ≤ s) ∧
    ((∀ p ∈ group, sz p = none) →
      select_representative sz group = group.head? ∧
      ∃ r, group.head? = some r ∧ r ∈ group) := by
  constructor
  · rintro ⟨p, hp, s, hs, hspos⟩
    have hub : s ≤ (select_loop sz group none 0).2 := select_loop_ub sz group none 0 p hp s hs
    rcases select_loop_cases sz group none 0 with ⟨_, h2⟩ | ⟨b, hb, h1, h2⟩
    · omega
    · refine ⟨b, (select_loop sz group none 0).2, ?_, hb, h2, ?_⟩
      · unfold select_representative
        rw [h1]
        show (if b = "" then group.head? else some b) = some b
        rw [if_neg (hnempty b hb)]
      · exact fun q hq t ht => select_loop_ub sz group none 0 q hq t ht
  · intro hall
    have hsl : select_loop sz group none 0 = (none, 0) := select_loop_all_none sz group none 0 hall
    constructor
    · unfold select_representative
      rw [hsl]
    · obtain ⟨a, l, rfl⟩ := List.exists_cons_of_ne_nil hne
      exact ⟨a, rfl, List.mem_cons_self a l⟩

/-- Claim C4 witness: on the cluster `[a, b]` with sizes 100 and 200, the
amended theorem applies and the selected representative is the larger
member. -/
theorem c4_select_largest_witness :
    (¬ (["a", "b"] : List ImageRef) = [] ∧ (∀ p ∈ (["a", "b"] : List ImageRef), ¬ p = "") ∧
      (∃ p, p ∈ (["a", "b"] : List ImageRef) ∧ ∃ s,
        (fun q => if q = "a" then some 100 else if q = "b" then some 200 else none) p = some s ∧ 0 < s)) ∧
    (∃ r s, select_representative
        (fun q => if q = "a" then some 100 else if q = "b" then some 200 else none) ["a", "b"] = some r ∧
      r ∈ (["a", "b"] : List ImageRef) ∧
      (fun q => if q = "a" then some 100 else if q = "b" then some 200 else none) r = some s ∧
      ∀ q ∈ (["a", "b"] : List ImageRef), ∀ t,
        (fun q => if q = "a" then some 100 else if q = "b" then some 200 else none) q = some t → t ≤ s) :=
  ⟨⟨by decide, by decide, by decide⟩,
    (c4_select_largest _ ["a", "b"] (by decide) (by decide)).1 (by decide)⟩

/-- The per-group data assembled by `process_duplicates` (lines 346-352). -/
structure GroupData where
  group_id : Nat
  total_count : Nat
  representative : ImageRef
  duplicates : List ImageRef
  remove_count : Nat
deriving DecidableEq

/-- One iteration of the planning loop of `process_duplicates`
(lines 342-353): pick the representative of the cluster, remove it from the
cluster to obtain the files to delete, and record the per-group data; `none`
models the `IndexError` raised by `select_representative` on an empty
cluster. -/
def plan_decision (sz : ImageRef → Option Nat) (i : Nat) (g : List ImageRef) : Option GroupData :=
  match select_representative sz g with
  | none => none
  | some r =>
    some { group_id := i, total_count := g.length, representative := r,
           duplicates := g.filter (fun q => decide (¬ q = r)),
           remove_count := (g.filter (fun q => decide (¬ q = r))).length }

lemma length_filter_ne {g : List ImageRef} {r : ImageRef} (hnd : g.Nodup) (hr : r ∈ g) :
    (g.filter (fun q => decide (¬ q = r))).length + 1 = g.length := by
  induction g with
  | nil => cases hr
  | cons a g ih =>
    rw [List.nodup_cons] at hnd
    rcases List.mem_cons.mp hr with rfl | hr
    · rw [List.filter_cons_of_neg (by simp)]
      have hall : g.filter (fun q => decide (¬ q = r)) = g := by
        rw [List.filter_eq_self]
        intro q hq
        simp only [decide_eq_true_eq]
        exact fun hqa => hnd.1 (hqa ▸ hq)
      rw [hall, List.length_cons]
    · have hne : ¬ a = r := fun h => hnd.1 (h ▸ hr)
      rw [List.filter_cons_of_pos (by simpa using hne), List.length_cons, List.length_cons]
      rw [← ih hnd.2 hr]

/-- Claim C5: for every `ClusterDecision` built by the planning loop from a
cluster (a duplicate-free list), the representative is a member of the
cluster, the recorded duplicates are exactly the cluster minus the
representative, the representative is not among the duplicates, and the
duplicates number exactly one less than the cluster. -/
theorem c5_removal_completeness (sz : ImageRef → Option Nat) (i : Nat)
    (g : List ImageRef) (d : GroupData)
    (hnd : g.Nodup) (h : plan_decision sz i g = some d) :
    d.representative ∈ g ∧
    ¬ d.representative ∈ d.duplicates ∧
    (∀ x, x ∈ d.duplicates ↔ x ∈ g ∧ ¬ x = d.representative) ∧
    d.duplicates.length + 1 = g.length ∧
    d.remove_count = d.duplicates.length ∧
    d.total_count = g.length := by
  unfold plan_decision at h
  split at h
  · cases h
  · rename_i r heq
    rw [Option.some_inj] at h
    subst h
    have hrg : r ∈ g := select_representative_mem heq
    have hmem : ∀ x, x ∈ g.filter (fun q => decide (¬ q = r)) ↔ x ∈ g ∧ ¬ x = r := by
      intro x
      rw [List.mem_filter]
      simp
    refine ⟨hrg, ?_, hmem, length_filter_ne hnd hrg, rfl, rfl⟩
    intro hcontra
    exact ((hmem r).mp hcontra).2 rfl

/-- Claim C5 witness: the decision built from the cluster `[a, b]` when no
file size is readable keeps `a` and marks `b` for removal. -/
theorem c5_removal_completeness_witness :
    ((["a", "b"] : List ImageRef).Nodup ∧
      plan_decision (fun _ => none) 1 ["a", "b"] =
        some { group_id := 1, total_count := 2, representative := "a",
               duplicates := ["b"], remove_count := 1 }) ∧
    (("a" : ImageRef) ∈ (["a", "b"] : List ImageRef) ∧
      ¬ ("a" : ImageRef) ∈ ["b"] ∧
      (∀ x : ImageRef, x ∈ ["b"] ↔ x ∈ (["a", "b"] : List ImageRef) ∧ ¬ x = "a") ∧
      (["b"] : List ImageRef).length + 1 = (["a", "b"] : List ImageRef).length ∧
      (1 : Nat) = (["b"] : List ImageRef).length ∧
      (2 : Nat) = (["a", "b"] : List ImageRef).length) :=
  ⟨⟨by decide, by decide⟩,
    c5_removal_completeness (fun _ => none) 1 ["a", "b"]
      { group_id := 1, total_count := 2, representative := "a",
        duplicates := ["b"], remove_count := 1 } (by decide) (by decide)⟩

/-- `os.path.basename`: the part of the path after the last slash. -/
def basename (p : ImageRef) : String :=
  String.mk ((p.toList.reverse.takeWhile (fun c => decide (¬ c = '/'))).reverse)

/-- The observable outcome of one file in the deletion loop: `removed` when
`os.remove` succeeded and the deleted counter was incremented, `failed` when
the `except` branch reported a failure for the file (lines 409-410). -/
inductive Outcome where
  | removed
  | failed
deriving DecidableEq

/-- The state acted on by the deletion loop of `process_duplicates`: the
source filesystem (path to file content, `none` when the file does not
exist), the backup directory contents keyed by basename, the log of per-file
outcomes and the `deleted_count` counter. -/
structure ExecState where
  src : ImageRef → Option Nat
  backup : List (String × Nat)
  outcomes : List (ImageRef × Outcome)
  deleted : Nat

/-- Writing a file into the backup directory: an existing entry with the same
name is silently overwritten (the semantics of `shutil.copy2` to an existing
destination path). -/
def setEntry (l : List (String × Nat)) (k : String) (v : Nat) : List (String × Nat) :=
  match l with
  | [] => [(k, v)]
  | (k2, v2) :: rest => if k2 = k then (k, v) :: rest else (k2, v2) :: setEntry rest k v

/-- One iteration of the deletion loop (lines 396-410 and 414-430): inside a
per-file `try` block, when a backup directory is set the file is first copied
there under its basename (`shutil.copy2` raises when the source is missing,
and an injected `copyFail` models any other copy failure, skipping the
removal); then `os.remove` deletes the file (raising when it is missing, with
`removeFail` modelling other failures).  Any exception is caught, a failure
is reported for that one file, and the loop continues. -/
def exec_file (backupDir : Option String) (copyFail removeFail : ImageRef → Bool)
    (st : ExecState) (img : ImageRef) : ExecState :=
  match backupDir with
  | some _ =>
    match st.src img with
    | none => { st with outcomes := st.outcomes ++ [(img, Outcome.failed)] }
    | some c =>
      if copyFail img then { st with outcomes := st.outcomes ++ [(img, Outcome.failed)] }
      else
        if removeFail img then
          { st with backup := setEntry st.backup (basename img) c,
                    outcomes := st.outcomes ++ [(img, Outcome.failed)] }
        else
          { st with backup := setEntry st.backup (basename img) c,
                    src := fun q => if q = img then none else st.src q,
                    outcomes := st.outcomes ++ [(img, Outcome.removed)],
                    deleted := st.deleted + 1 }
  | none =>
    match st.src img with
    | none => { st with outcomes := st.outcomes ++ [(img, Outcome.failed)] }
    | some _ =>
      if removeFail img then { st with outcomes := st.outcomes ++ [(img, Outcome.failed)] }
      else
        { st with src := fun q => if q = img then none else st.src q,
                  outcomes := st.outcomes ++ [(img, Outcome.removed)],
                  deleted := st.deleted + 1 }

/-- The whole deletion pass of `process_duplicates` (lines 392-430) over the
flattened list of files to remove. -/
def run_executor (backupDir : Option String) (copyFail removeFail : ImageRef → Bool)
    (st : ExecState) (files : List ImageRef) : ExecState :=
  files.foldl (exec_file backupDir copyFail removeFail) st

lemma exec_file_src_other {backupDir : Option String} {copyFail removeFail : ImageRef → Bool}
    {st : ExecState} {img p : ImageRef} (h : ¬ p = img) :
    (exec_file backupDir copyFail removeFail st img).src p = st.src p := by
  rcases backupDir with _ | b
  · rcases hs : st.src img with _ | c
    · simp only [exec_file, hs]
    · simp only [exec_file, hs]
      split
      · rfl
      · simp [h]
  · rcases hs : st.src img with _ | c
    · simp only [exec_file, hs]
    · simp only [exec_file, hs]
      split
      · rfl
      · split
        · rfl
        · simp [h]

lemma exec_file_outcomes_mono {backupDir : Option String} {copyFail removeFail : ImageRef → Bool}
    {st : ExecState} {img : ImageRef} {o : ImageRef × Outcome} (h : o ∈ st.outcomes) :
    o ∈ (exec_file backupDir copyFail removeFail st img).outcomes := by
  rcases backupDir with _ | b
  · rcases hs : st.src img with _ | c
    · simp only [exec_file, hs]
      exact List.mem_append_left _ h
    · simp only [exec_file, hs]
      split
      · exact List.mem_append_left _ h
      · exact List.mem_append_left _ h
  · rcases hs : st.src img with _ | c
    · simp only [exec_file, hs]
      exact List.mem_append_left _ h
    · simp only [exec_file, hs]
      split
      · exact List.mem_append_left _ h
      · split
        · exact List.mem_append_left _ h
        · exact List.mem_append_left _ h

lemma exec_file_copy_fail {b : String} {copyFail removeFail : ImageRef → Bool}
    {st : ExecState} {img : ImageRef} (hcf : copyFail img = true) :
    (exec_file (some b) copyFail removeFail st img).src img = st.src img ∧
    (img, Outcome.failed) ∈ (exec_file (some b) copyFail removeFail st img).outcomes := by
  rcases hs : st.src img with _ | c
  · constructor
    · simp only [exec_file, hs]
    · simp only [exec_file, hs]
      exact List.mem_append_right _ (List.mem_singleton.mpr rfl)
  · constructor
    · simp only [exec_file, hs, hcf, if_true]
    · simp only [exec_file, hs, hcf, if_true]
      exact List.mem_append_right _ (List.mem_singleton.mpr rfl)

lemma run_executor_cons (backupDir : Option String) (copyFail removeFail : ImageRef → Bool)
    (st : ExecState) (f : ImageRef) (files : List ImageRef) :
    run_executor backupDir copyFail removeFail st (f :: files) =
    run_executor backupDir copyFail removeFail
      (exec_file backupDir copyFail removeFail st f) files := by
  rw [run_executor, run_executor, List.foldl_cons]

lemma exec_file_success {b : String} {copyFail removeFail : ImageRef → Bool}
    {st : ExecState} {img : ImageRef} {c : Nat}
    (hcf : copyFail img = false) (hrf : removeFail img = false) (hs : st.src img = some c) :
    (exec_file (some b) copyFail removeFail st img).src img = none ∧
    (img, Outcome.removed) ∈ (exec_file (some b) copyFail removeFail st img).outcomes := by
  simp only [exec_file, hs, hcf, hrf, Bool.false_eq_true, if_false]
  exact ⟨by simp, List.mem_append_right _ (List.mem_singleton.mpr rfl)⟩

lemma run_executor_src_not_mem {backupDir : Option String} {copyFail removeFail : ImageRef → Bool} :
    ∀ (files : List ImageRef) (st : ExecState) (p : ImageRef), ¬ p ∈ files →
      (run_executor backupDir copyFail removeFail st files).src p = st.src p
  | [], _, _, _ => rfl
  | f :: files, st, p, hp => by
    rw [run_executor_cons]
    have hpf : ¬ p = f := fun h => hp (h ▸ List.mem_cons_self f files)
    have hrest : ¬ p ∈ files := fun h => hp (List.mem_cons_of_mem f h)
    rw [run_executor_src_not_mem files _ p hrest]
    exact exec_file_src_other hpf

lemma run_executor_outcomes_mono {backupDir : Option String} {copyFail removeFail : ImageRef → Bool} :
    ∀ (files : List ImageRef) (st : ExecState) (o : ImageRef × Outcome), o ∈ st.outcomes →
      o ∈ (run_executor backupDir copyFail removeFail st files).outcomes
  | [], _, _, h => h
  | f :: files, st, o, h => by
    rw [run_executor_cons]
    exact run_executor_outcomes_mono files _ o (exec_file_outcomes_mono h)

lemma run_executor_copy_fail {b : String} {copyFail removeFail : ImageRef → Bool} :
    ∀ (files : List ImageRef) (st : ExecState) (X : ImageRef),
      files.Nodup → X ∈ files → copyFail X = true →
      (run_executor (some b) copyFail removeFail st files).src X = st.src X ∧
      (X, Outcome.failed) ∈ (run_executor (some b) copyFail removeFail st files).outcomes
  | f :: files, st, X, hnd, hX, hcf => by
    rw [run_executor_cons]
    rw [List.nodup_cons] at hnd
    rcases List.mem_cons.mp hX with rfl | hX
    · obtain ⟨h1, h2⟩ := @exec_file_copy_fail b copyFail removeFail st X hcf
      constructor
      · rw [run_executor_src_not_mem files _ X hnd.1]
        exact h1
      · exact run_executor_outcomes_mono files _ _ h2
    · have hXf : ¬ X = f := fun h => (h ▸ hnd.1) hX
      obtain ⟨h1, h2⟩ := run_executor_copy_fail files
        (exec_file (some b) copyFail removeFail st f) X hnd.2 hX hcf
      refine ⟨?_, h2⟩
      rw [h1]
      exact exec_file_src_other hXf

lemma run_executor_success {b : String} {copyFail removeFail : ImageRef → Bool} :
    ∀ (files : List ImageRef) (st : ExecState) (Y : ImageRef) (c : Nat),
      files.Nodup → Y ∈ files → copyFail Y = false → removeFail Y = false →
      st.src Y = some c →
      (run_executor (some b) copyFail removeFail st files).src Y = none ∧
      (Y, Outcome.removed) ∈ (run_executor (some b) copyFail removeFail st files).outcomes
  | f :: files, st, Y, c, hnd, hY, hcf, hrf, hsrc => by
    rw [run_executor_cons]
    rw [List.nodup_cons] at hnd
    rcases List.mem_cons.mp hY with rfl | hY
    · obtain ⟨h1, h2⟩ := @exec_file_success b copyFail removeFail st Y c hcf hrf hsrc
      constructor
      · rw [run_executor_src_not_mem files _ Y hnd.1]
        exact h1
      · exact run_executor_outcomes_mono files _ _ h2
    · have hYf : ¬ Y = f := fun h => (h ▸ hnd.1) hY
      have hsrc2 : (exec_file (some b) copyFail removeFail st f).src Y = some c := by
        rw [exec_file_src_other hYf]
        exact hsrc
      exact run_executor_success files _ Y c hnd.2 hY hcf hrf hsrc2

/-- Claim C6: in the deletion executor with a backup directory configured,
when the backup copy of a file `X` fails, `X` is not deleted (its filesystem
entry is unchanged) and a failed outcome is recorded for `X`; and every other
file whose backup and removal are not subject to failures and which exists at
the start is still removed, with a removed outcome — the run processes every
file and one file's failure does not affect the others. -/
theorem c6_per_file_failure_isolation (b : String) (copyFail removeFail : ImageRef → Bool)
    (st : ExecState) (files : List ImageRef) (X : ImageRef)
    (hnd : files.Nodup) (hX : X ∈ files) (hcf : copyFail X = true) :
    ((run_executor (some b) copyFail removeFail st files).src X = st.src X ∧
      (X, Outcome.failed) ∈ (run_executor (some b) copyFail removeFail st files).outcomes) ∧
    (∀ Y c, Y ∈ files → copyFail Y = false → removeFail Y = false → st.src Y = some c →
      (run_executor (some b) copyFail removeFail st files).src Y = none ∧
      (Y, Outcome.removed) ∈ (run_executor (some b) copyFail removeFail st files).outcomes) := by
  refine ⟨run_executor_copy_fail files st X hnd hX hcf, ?_⟩
  exact fun Y c hY hcfY hrfY hsrcY =>
    run_executor_success files st Y c hnd hY hcfY hrfY hsrcY

/-- Claim C6 witness: two files `a` and `b`, a failure injected into the
backup of `a`: after the run, `a` still exists with a failed outcome while
`b` was removed. -/
theorem c6_per_file_failure_isolation_witness :
    ((["a", "b"] : List ImageRef).Nodup ∧ ("a" : ImageRef) ∈ (["a", "b"] : List ImageRef) ∧
      (fun p : ImageRef => decide (p = "a")) "a" = true) ∧
    (((run_executor (some "bk") (fun p => decide (p = "a")) (fun _ => false)
        { src := fun p => if p = "a" then some 1 else if p = "b" then some 2 else none,
          backup := [], outcomes := [], deleted := 0 } ["a", "b"]).src "a" =
        (fun p : ImageRef => if p = "a" then some 1 else if p = "b" then some 2 else none) "a" ∧
      (("a" : ImageRef), Outcome.failed) ∈ (run_executor (some "bk") (fun p => decide (p = "a"))
        (fun _ => false)
        { src := fun p => if p = "a" then some 1 else if p = "b" then some 2 else none,
          backup := [], outcomes := [], deleted := 0 } ["a", "b"]).outcomes) ∧
    (∀ Y c, Y ∈ (["a", "b"] : List ImageRef) → (fun p : ImageRef => decide (p = "a")) Y = false →
      (fun _ : ImageRef => false) Y = false →
      (fun p : ImageRef => if p = "a" then some 1 else if p = "b" then some 2 else none) Y = some c →
      (run_executor (some "bk") (fun p => decide (p = "a")) (fun _ => false)
        { src := fun p => if p = "a" then some 1 else if p = "b" then some 2 else none,
          backup := [], outcomes := [], deleted := 0 } ["a", "b"]).src Y = none ∧
      ((Y, Outcome.removed) ∈ (run_executor (some "bk") (fun p => decide (p = "a")) (fun _ => false)
        { src := fun p => if p = "a" then some 1 else if p = "b" then some 2 else none,
          backup := [], outcomes := [], deleted := 0 } ["a", "b"]).outcomes))) :=
  ⟨⟨by decide, by decide, by decide⟩,
    c6_per_file_failure_isolation "bk" (fun p => decide (p = "a")) (fun _ => false)
      { src := fun p => if p = "a" then some 1 else if p = "b" then some 2 else none,
        backup := [], outcomes := [], deleted := 0 } ["a", "b"] "a"
      (by decide) (by decide) (by decide)⟩

/-- Claim C7 (code bug): the backup destination is derived solely from the
basename of the source, and `shutil.copy2` silently overwrites an existing
destination.  With two distinct files `d1/x` and `d2/x` slated for removal
(same basename `x`, contents 1 and 2), the executor backs both up to the
same entry `x`, deletes both sources, and the backup directory afterwards
holds only the second file's content — the first file's content (1) is in no
backup entry, contradicting the claim that every removed file's content
remains available in the backup directory. -/
theorem c7_backup_basename_overwrite :
    ¬ ("d1/x" : ImageRef) = "d2/x" ∧
    basename "d1/x" = basename "d2/x" ∧
    ((run_executor (some "bk") (fun _ => false) (fun _ => false)
        { src := fun p => if p = "d1/x" then some 1 else if p = "d2/x" then some 2 else none,
          backup := [], outcomes := [], deleted := 0 } ["d1/x", "d2/x"]).backup = [("x", 2)] ∧
      (run_executor (some "bk") (fun _ => false) (fun _ => false)
        { src := fun p => if p = "d1/x" then some 1 else if p = "d2/x" then some 2 else none,
          backup := [], outcomes := [], deleted := 0 } ["d1/x", "d2/x"]).src "d1/x" = none ∧
      (run_executor (some "bk") (fun _ => false) (fun _ => false)
        { src := fun p => if p = "d1/x" then some 1 else if p = "d2/x" then some 2 else none,
          backup := [], outcomes := [], deleted := 0 } ["d1/x", "d2/x"]).src "d2/x" = none ∧
      ¬ (∃ e, e ∈ (run_executor (some "bk") (fun _ => false) (fun _ => false)
          { src := fun p => if p = "d1/x" then some 1 else if p = "d2/x" then some 2 else none,
            backup := [], outcomes := [], deleted := 0 } ["d1/x", "d2/x"]).backup ∧ e.2 = 1)) := by
  refine ⟨by decide, by decide, by decide, by decide, by decide, ?_⟩
  decide

/-- The supported image extensions (line 34). -/
def SUPPORTED_EXTENSIONS : List String :=
  [".jpg", ".jpeg", ".png", ".bmp", ".tiff", ".tif", ".webp"]

/-- `pathlib.Path.suffix` of a file name given as a character list: the part
from the last dot on; empty when the name has no dot, when the only dot is
the leading character (dotfiles), or when the name ends with the dot.  The
two length conditions say exactly that the last dot is at a position `i`
with `0 < i < length - 1`. -/
def suffix_of (name : List Char) : List Char :=
  let tail := name.reverse.takeWhile (fun c => decide (¬ c = '.'))
  if tail.length + 1 < name.length ∧ 0 < tail.length then '.' :: tail.reverse
  else []

/-- `str.lower()` on a list of characters. -/
def lower_chars (l : List Char) : List Char := l.map Char.toLower

/-- The extension filter of `find_all_images` (line 86):
`file_path.suffix.lower() in SUPPORTED_EXTENSIONS`. -/
def recognized_image (p : ImageRef) : Bool :=
  decide (String.mk (lower_chars (suffix_of (basename p).toList)) ∈ SUPPORTED_EXTENSIONS)

/-- Character-wise comparison of paths: the lexicographic order (by code
point) that Python `sorted` uses on strings. -/
def chars_le : List Char → List Char → Bool
  | [], _ => true
  | _ :: _, [] => false
  | c :: cs, d :: ds =>
    if c.toNat < d.toNat then true
    else if d.toNat < c.toNat then false
    else chars_le cs ds

/-- One insertion step of the stable ascending sort. -/
def insert_sorted (x : ImageRef) : List ImageRef → List ImageRef
  | [] => [x]
  | y :: ys => if chars_le x.toList y.toList then x :: y :: ys else y :: insert_sorted x ys

/-- `sorted(image_files)` (line 100) as a stable insertion sort. -/
def sort_paths (l : List ImageRef) : List ImageRef := l.foldr insert_sorted []

lemma length_insert_sorted (x : ImageRef) :
    ∀ l : List ImageRef, (insert_sorted x l).length = l.length + 1
  | [] => rfl
  | y :: ys => by
    rw [insert_sorted]
    split
    · simp
    · rw [List.length_cons, length_insert_sorted x ys, List.length_cons]

lemma length_sort_paths : ∀ l : List ImageRef, (sort_paths l).length = l.length
  | [] => rfl
  | x :: l => by
    rw [sort_paths, List.foldr_cons]
    rw [show List.foldr insert_sorted [] l = sort_paths l from rfl]
    rw [length_insert_sorted, length_sort_paths l, List.length_cons]

/-- The two exceptions of the modelled pipeline: the `FileNotFoundError`
raised by `find_all_images` for a missing root (line 77) and the
`IndexError` raised by `list(group)[0]` on an empty cluster (line 223). -/
inductive RunError where
  | fileNotFound
  | indexError
deriving DecidableEq

/-- `find_all_images` (lines 62-100): raises `FileNotFoundError` when the
root does not exist; otherwise the files of the recursive listing that are
regular files with a recognized extension, sorted.  The raw listing and the
file test are oracles standing for the filesystem. -/
def find_all_images (rootExists : Bool) (allFiles : List ImageRef) (isFile : ImageRef → Bool) :
    Except RunError (List ImageRef) :=
  if rootExists then
    Except.ok (sort_paths (allFiles.filter (fun p => isFile p && recognized_image p)))
  else Except.error RunError.fileNotFound

/-- The success payload of `process_duplicates` (lines 434-447); the pure
run metadata (timestamp, method, threshold, source directory) is omitted. -/
structure SuccessResult where
  total_images : Nat
  duplicate_groups : Nat
  total_duplicates : Nat
  total_to_remove : Nat
  remaining_images : Nat
  groups : List GroupData
  deleted : Nat
deriving DecidableEq

/-- The three result shapes `process_duplicates` returns: the dict
`{"status": "no_images"}` (line 325), the dict `{"status": "no_duplicates",
"total_images": n}` (line 335), and the success dict (lines 434-447). -/
inductive RunOutcome where
  | no_images
  | no_duplicates (total_images : Nat)
  | success (r : SuccessResult)
deriving DecidableEq

/-- The planning loop of `process_duplicates` (lines 342-356) with its
1-based `enumerate` counter. -/
def plan_groups_from (sz : ImageRef → Option Nat) : Nat → List (List ImageRef) → Except RunError (List GroupData)
  | _, [] => Except.ok []
  | i, g :: rest =>
    match plan_decision sz i g with
    | none => Except.error RunError.indexError
    | some d =>
      match plan_groups_from sz (i + 1) rest with
      | Except.error e => Except.error e
      | Except.ok ds => Except.ok (d :: ds)

/-- `process_duplicates` (lines 306-453): list all images (propagating the
`FileNotFoundError` of a missing root), return `no_images` when none are
found; group the duplicate map supplied by the similarity oracle and return
`no_duplicates` when no group results; otherwise plan one decision per
cluster, run the deletion executor only when `delete` is set (with the
optional backup directory and injected per-file failures), and assemble the
success result.  `save_results_to_file` only creates new report files and is
not modelled. -/
def process_duplicates (rootExists : Bool) (allFiles : List ImageRef) (isFile : ImageRef → Bool)
    (dups : DuplicateMap) (sz : ImageRef → Option Nat) (delete : Bool)
    (backupDir : Option String) (copyFail removeFail : ImageRef → Bool)
    (st : ExecState) : Except RunError (RunOutcome × ExecState) :=
  match find_all_images rootExists allFiles isFile with
  | Except.error e => Except.error e
  | Except.ok found =>
    if found.length = 0 then Except.ok (RunOutcome.no_images, st)
    else
      match group_duplicates dups with
      | [] => Except.ok (RunOutcome.no_duplicates found.length, st)
      | g :: gs =>
        match plan_groups_from sz 1 (g :: gs) with
        | Except.error e => Except.error e
        | Except.ok group_info =>
          let total_to_remove := (group_info.map (fun d => d.remove_count)).sum
          let st2 := if delete then
              run_executor backupDir copyFail removeFail st
                (group_info.flatMap (fun d => d.duplicates))
            else st
          Except.ok (RunOutcome.success {
            total_images := found.length,
            duplicate_groups := (g :: gs).length,
            total_duplicates := (group_info.map (fun d => d.total_count)).sum,
            total_to_remove := total_to_remove,
            remaining_images := found.length - total_to_remove,
            groups := group_info,
            deleted := if delete then st2.deleted - st.deleted else 0 }, st2)

/-- Claim C8: with `delete = False` the run performs no filesystem mutation —
the state (source files, backups, outcome log, deleted counter) returned is
exactly the state passed in — and any success result reports a deleted count
of 0. -/
theorem c8_dry_run_no_mutation (rootExists : Bool) (allFiles : List ImageRef)
    (isFile : ImageRef → Bool) (dups : DuplicateMap) (sz : ImageRef → Option Nat)
    (backupDir : Option String) (copyFail removeFail : ImageRef → Bool)
    (st : ExecState) (out : RunOutcome) (st2 : ExecState)
    (h : process_duplicates rootExists allFiles isFile dups sz false backupDir
      copyFail removeFail st = Except.ok (out, st2)) :
    st2 = st ∧ (∀ r, out = RunOutcome.success r → r.deleted = 0) := by
  unfold process_duplicates at h
  split at h
  · cases h
  · split at h
    · rw [Except.ok.injEq, Prod.mk.injEq] at h
      refine ⟨h.2.symm, ?_⟩
      intro r hr
      rw [← h.1] at hr
      cases hr
    · split at h
      · rw [Except.ok.injEq, Prod.mk.injEq] at h
        refine ⟨h.2.symm, ?_⟩
        intro r hr
        rw [← h.1] at hr
        cases hr
      · split at h
        · cases h
        · simp only [if_neg Bool.false_ne_true] at h
          rw [Except.ok.injEq, Prod.mk.injEq] at h
          refine ⟨h.2.symm, ?_⟩
          intro r hr
          rw [← h.1] at hr
          rw [RunOutcome.success.injEq] at hr
          rw [← hr]

/-- Claim C8 witness: a dry run on an empty directory returns the state
unchanged. -/
theorem c8_dry_run_no_mutation_witness :
    process_duplicates true [] (fun _ => true) [] (fun _ => none) false none
        (fun _ => false) (fun _ => false)
        { src := fun _ => none, backup := [], outcomes := [], deleted := 0 } =
      Except.ok (RunOutcome.no_images,
        { src := fun _ => none, backup := [], outcomes := [], deleted := 0 }) ∧
    ({ src := fun _ => none, backup := [], outcomes := [], deleted := 0 } : ExecState) =
      { src := fun _ => none, backup := [], outcomes := [], deleted := 0 } ∧
    (∀ r, RunOutcome.no_images = RunOutcome.success r → r.deleted = 0) :=
  ⟨rfl,
    (c8_dry_run_no_mutation true [] (fun _ => true) [] (fun _ => none) none
      (fun _ => false) (fun _ => false)
      { src := fun _ => none, backup := [], outcomes := [], deleted := 0 }
      RunOutcome.no_images
      { src := fun _ => none, backup := [], outcomes := [], deleted := 0 } rfl).1,
    (c8_dry_run_no_mutation true [] (fun _ => true) [] (fun _ => none) none
      (fun _ => false) (fun _ => false)
      { src := fun _ => none, backup := [], outcomes := [], deleted := 0 }
      RunOutcome.no_images
      { src := fun _ => none, backup := [], outcomes := [], deleted := 0 } rfl).2⟩

/-- Claim C9 (amended): when the source root exists but yields zero
recognized images, `process_duplicates` returns the terminal in-band status
`no_images` without mutating the state, and that status is distinct from the
success status and from the no-duplicates status.  (When the root does not
exist the function instead propagates the `FileNotFoundError` raised by
`find_all_images` — see the counterexample — so that half of the original
claim fails.) -/
theorem c9_no_images_status (allFiles : List ImageRef) (isFile : ImageRef → Bool)
    (dups : DuplicateMap) (sz : ImageRef → Option Nat) (delete : Bool)
    (backupDir : Option String) (copyFail removeFail : ImageRef → Bool) (st : ExecState)
    (hfind : find_all_images true allFiles isFile = Except.ok []) :
    process_duplicates true allFiles isFile dups sz delete backupDir
      copyFail removeFail st = Except.ok (RunOutcome.no_images, st) ∧
    (∀ r, ¬ RunOutcome.no_images = RunOutcome.success r) ∧
    (∀ n, ¬ RunOutcome.no_images = RunOutcome.no_duplicates n) := by
  refine ⟨?_, ?_, ?_⟩
  · unfold process_duplicates
    rw [hfind]
    rfl
  · intro r h
    cases h
  · intro n h
    cases h

/-- Claim C9 counterexample: when the source root does not exist,
`process_duplicates` does not return any status value — it propagates the
`FileNotFoundError` raised by `find_all_images` (the CLI `main` catches it
and prints a stack trace). -/
theorem c9_missing_root_raises :
    process_duplicates false [] (fun _ => true) [] (fun _ => none) false none
        (fun _ => false) (fun _ => false)
        { src := fun _ => none, backup := [], outcomes := [], deleted := 0 } =
      Except.error RunError.fileNotFound := rfl

/-- Claim C9 witness: a run over an empty listing hits the amended theorem's
hypothesis and returns the `no_images` status. -/
theorem c9_no_images_status_witness :
    find_all_images true [] (fun _ => true) = Except.ok [] ∧
    process_duplicates true [] (fun _ => true) [] (fun _ => none) true none
        (fun _ => false) (fun _ => false)
        { src := fun _ => none, backup := [], outcomes := [], deleted := 0 } =
      Except.ok (RunOutcome.no_images,
        { src := fun _ => none, backup := [], outcomes := [], deleted := 0 }) :=
  ⟨rfl,
    (c9_no_images_status [] (fun _ => true) [] (fun _ => none) true none
      (fun _ => false) (fun _ => false)
      { src := fun _ => none, backup := [], outcomes := [], deleted := 0 } rfl).1⟩

lemma group_duplicates_size_nodup (m : DuplicateMap) :
    ∀ G ∈ group_duplicates m, 2 ≤ G.length ∧ G.Nodup := by
  obtain ⟨vf, hmono, hcov, inv1, inv2, inv3, inv4, inv5⟩ :=
    group_loop_spec m (all_images m) ∅ [] (cluster_inv_empty m)
  exact inv2

lemma plan_decision_counts {sz : ImageRef → Option Nat} {i : Nat} {g : List ImageRef}
    {d : GroupData} (hnd : g.Nodup) (h : plan_decision sz i g = some d) :
    d.total_count = g.length ∧ d.remove_count + 1 = g.length := by
  unfold plan_decision at h
  split at h
  · cases h
  · rename_i r heq
    rw [Option.some_inj] at h
    subst h
    exact ⟨rfl, length_filter_ne hnd (select_representative_mem heq)⟩

lemma plan_groups_sum (sz : ImageRef → Option Nat) :
    ∀ (i : Nat) (gs : List (List ImageRef)) (ds : List GroupData),
      (∀ g ∈ gs, g.Nodup) → plan_groups_from sz i gs = Except.ok ds →
      ds.length = gs.length ∧
      (ds.map (fun d => d.total_count)).sum = (ds.map (fun d => d.remove_count)).sum + ds.length
  | _, [], ds, _, h => by
    rw [plan_groups_from, Except.ok.injEq] at h
    subst h
    exact ⟨rfl, rfl⟩
  | i, g :: gs, ds, hnd, h => by
    rw [plan_groups_from] at h
    split at h
    · cases h
    · rename_i d hd
      split at h
      · cases h
      · rename_i ds2 hds2
        rw [Except.ok.injEq] at h
        subst h
        obtain ⟨hc1, hc2⟩ := plan_decision_counts (hnd g (List.mem_cons_self g gs)) hd
        obtain ⟨hl, hs⟩ := plan_groups_sum sz (i + 1) gs ds2
          (fun g2 hg2 => hnd g2 (List.mem_cons_of_mem g hg2)) hds2
        constructor
        · rw [List.length_cons, List.length_cons, hl]
        · rw [List.map_cons, List.map_cons, List.sum_cons, List.sum_cons, List.length_cons]
          omega

/-- Claim C10: every success result of `process_duplicates` satisfies
`total_duplicates = total_to_remove + duplicate_groups`: each cluster
contributes all its members to the first counter and all but its
representative to the second, so the difference is the number of clusters. -/
theorem c10_counter_identity (rootExists : Bool) (allFiles : List ImageRef)
    (isFile : ImageRef → Bool) (dups : DuplicateMap) (sz : ImageRef → Option Nat)
    (delete : Bool) (backupDir : Option String) (copyFail removeFail : ImageRef → Bool)
    (st : ExecState) (r : SuccessResult) (st2 : ExecState)
    (h : process_duplicates rootExists allFiles isFile dups sz delete backupDir
      copyFail removeFail st = Except.ok (RunOutcome.success r, st2)) :
    r.total_duplicates = r.total_to_remove + r.duplicate_groups := by
  unfold process_duplicates at h
  split at h
  · cases h
  · split at h
    · rw [Except.ok.injEq, Prod.mk.injEq] at h
      cases h.1
    · split at h
      · rw [Except.ok.injEq, Prod.mk.injEq] at h
        cases h.1
      · rename_i g gs hgroups
        split at h
        · cases h
        · rename_i ds hds
          rw [Except.ok.injEq, Prod.mk.injEq] at h
          obtain ⟨hout, _⟩ := h
          rw [RunOutcome.success.injEq] at hout
          obtain ⟨hl, hs⟩ := plan_groups_sum sz 1 (g :: gs) ds
            (fun g2 hg2 => (group_duplicates_size_nodup dups g2 (hgroups ▸ hg2)).2) hds
          rw [← hout]
          simp only
          rw [hs, hl]

/-- Claim C10 witness: a concrete successful dry run — one found image, one
cluster of two images — has counters 2 = 1 + 1. -/
theorem c10_counter_identity_witness :
    process_duplicates true ["p.jpg"] (fun _ => true) [("a", ["b"])] (fun _ => none)
        false none (fun _ => false) (fun _ => false)
        { src := fun _ => none, backup := [], outcomes := [], deleted := 0 } =
      Except.ok (RunOutcome.success
        { total_images := 1, duplicate_groups := 1, total_duplicates := 2,
          total_to_remove := 1, remaining_images := 0,
          groups := [{ group_id := 1, total_count := 2, representative := "a",
                       duplicates := ["b"], remove_count := 1 }], deleted := 0 },
        { src := fun _ => none, backup := [], outcomes := [], deleted := 0 }) ∧
    ({ total_images := 1, duplicate_groups := 1, total_duplicates := 2,
       total_to_remove := 1, remaining_images := 0,
       groups := [{ group_id := 1, total_count := 2, representative := "a",
                    duplicates := ["b"], remove_count := 1 }],
       deleted := 0 } : SuccessResult).total_duplicates =
      ({ total_images := 1, duplicate_groups := 1, total_duplicates := 2,
         total_to_remove := 1, remaining_images := 0,
         groups := [{ group_id := 1, total_count := 2, representative := "a",
                      duplicates := ["b"], remove_count := 1 }],
         deleted := 0 } : SuccessResult).total_to_remove +
      ({ total_images := 1, duplicate_groups := 1, total_duplicates := 2,
         total_to_remove := 1, remaining_images := 0,
         groups := [{ group_id := 1, total_count := 2, representative := "a",
                      duplicates := ["b"], remove_count := 1 }],
         deleted := 0 } : SuccessResult).duplicate_groups := by
  have hgd : group_duplicates [(("a" : ImageRef), ["b"])] = [["a", "b"]] := by
    simp [group_duplicates, group_loop, dfs_loop, all_images, all_images_step,
      insertNode, nbrs, nbrs_step, edges, push_unvisited, List.foldl]
  have hfind : find_all_images true ["p.jpg"] (fun _ => true) = Except.ok ["p.jpg"] := rfl
  have h : process_duplicates true ["p.jpg"] (fun _ => true) [("a", ["b"])] (fun _ => none)
      false none (fun _ => false) (fun _ => false)
      { src := fun _ => none, backup := [], outcomes := [], deleted := 0 } =
      Except.ok (RunOutcome.success
        { total_images := 1, duplicate_groups := 1, total_duplicates := 2,
          total_to_remove := 1, remaining_images := 0,
          groups := [{ group_id := 1, total_count := 2, representative := "a",
                       duplicates := ["b"], remove_count := 1 }], deleted := 0 },
        { src := fun _ => none, backup := [], outcomes := [], deleted := 0 }) := by
    unfold process_duplicates
    rw [hfind, hgd]
    rfl
  exact ⟨h, c10_counter_identity true ["p.jpg"] (fun _ => true) [("a", ["b"])]
    (fun _ => none) false none (fun _ => false) (fun _ => false)
    { src := fun _ => none, backup := [], outcomes := [], deleted := 0 }
    { total_images := 1, duplicate_groups := 1, total_duplicates := 2,
      total_to_remove := 1, remaining_images := 0,
      groups := [{ group_id := 1, total_count := 2, representative := "a",
                   duplicates := ["b"], remove_count := 1 }], deleted := 0 }
    { src := fun _ => none, backup := [], outcomes := [], deleted := 0 } h⟩
